import Mathlib

/-!
Verification of the download/retry orchestration engine of `bot.py`
(YouTube downloader Telegram bot).

The embedding models, per requester (chat id):

* the in-memory failed-download list `self.failed_downloads[str(chat_id)]`
  together with its durable mirror `failed_lists/{chat_id}_failed_downloads.json`
  (`LedgerState`);
* `download_video` (single-item orchestrator with its bounded retry loop);
* the per-item retry loop and accumulation of `download_playlist`;
* the retry-all branch of `process_retry_selection` (`processRetryAll`);
* `process_specific_retry` (`processSpecificRetry`);
* the catch-all URL handler `handle_url` (`handleUrl`);
* `save_failed_list` (`saveFailedList`).

External effects (pytubefix fetches, moviepy conversion, Telegram sends,
playlist resolution) are abstracted into a deterministic environment `Env`
that records, per url / format / attempt index, whether the fetch (plus,
for MP3, the conversion, which by `convert_to_mp3`'s own handler never
raises) succeeds and whether the Telegram delivery succeeds.

One deliberate modelling point, key to several claims: in Python,
`failed_list = self.failed_downloads.get(str(chat_id), [])` aliases the
stored list, so `download_video`'s `append` during a retry loop is visible
to the very loop that is iterating over `failed_list`.  The retry-all loop
is therefore modelled as an index-driven loop over the *evolving* list
(`retryAllGo`), with fuel to express non-termination, and the
specific-retry removal filter runs over the list as mutated by the retries
(`processSpecificRetry`), exactly as CPython executes it.
-/

/-- Helper for the substring test: does `needle` start `hay`? -/
def startsWithChars : List Char → List Char → Bool
  | [], _ => true
  | _ :: _, [] => false
  | a :: as, b :: bs => a == b && startsWithChars as bs

/-- Helper for the substring test: does `needle` occur in `hay`? -/
def containsChars (needle : List Char) : List Char → Bool
  | [] => needle.isEmpty
  | c :: rest => startsWithChars needle (c :: rest) || containsChars needle rest

/-- Python's substring operator `needle in hay` on strings. -/
def containsSub (needle hay : String) : Bool :=
  containsChars needle.toList hay.toList

/-- One entry of a failed-download list: the tuple `(url, format_choice)`
appended by `download_video` line 286 and `download_playlist` line 334.
`fmt` is the format-choice string, `"MP3"` or `"MP4"` at every call site. -/
structure FailedItem where
  url : String
  fmt : String
  deriving DecidableEq, Repr

/-- Per-requester ledger state: `mem` is the in-memory authoritative list
`self.failed_downloads[str(chat_id)]`; `disk` is the current content of
`failed_lists/{chat_id}_failed_downloads.json` (`none` if never written). -/
structure LedgerState where
  mem : List FailedItem
  disk : Option (List FailedItem)
  deriving DecidableEq, Repr

/-- `save_failed_list(chat_id)` (lines 373-384): overwrites the requester's
JSON file with the current in-memory list. -/
def saveFailedList (st : LedgerState) : LedgerState :=
  { st with disk := some st.mem }

/-- Deterministic environment for the external collaborators, recorded per
url / format-choice / attempt index. -/
structure Env where
  /-- Does the pytubefix fetch (and, for MP3, the subsequent conversion,
  which cannot raise) complete on this attempt? -/
  fetchOk : String → String → Nat → Bool
  /-- Does `bot.send_document` of the fetched artifact succeed on this
  attempt? -/
  sendOk : String → String → Nat → Bool
  /-- `Playlist(url).video_urls`; `none` models `Playlist(url)` raising. -/
  resolve : String → Option (List String)
  /-- Does `bot.send_document` of the playlist zip succeed? -/
  zipSendOk : String → String → Bool

/-- What one iteration of `download_video`'s `try` block runs into. -/
inductive AttemptOutcome where
  | fetchFail
  | sendFail
  | ok
  deriving DecidableEq, Repr

/-- Outcome of attempt `j` of `download_video(chat_id, u, f)`: the fetch
must complete, then the delivery; `os.remove` follows delivery inside the
same `try`. -/
def dvOutcome (env : Env) (u f : String) (j : Nat) : AttemptOutcome :=
  if env.fetchOk u f j then
    if env.sendOk u f j then .ok else .sendFail
  else .fetchFail

/-- Result of a `download_video` call.  `fetchCalls` counts how many times
the fetch operation was invoked (one per loop iteration); `undeleted`
counts artifact files that were downloaded but whose `os.remove` was
skipped because the enclosing attempt raised after the download. -/
structure DVResult where
  st : LedgerState
  fetchCalls : Nat
  undeleted : Nat
  delivered : Bool
  deriving DecidableEq, Repr

/-- The loop `for attempt in range(max_retries)` of `download_video`
(lines 249-289), with `r` the number of attempts still available and `a`
the current attempt index.  On `.ok` the file is sent, removed, and the
function returns; on an exception the attempt is logged and, exactly when
it was the last attempt (`r = 0` after unfolding one step), the failure
message is sent, `(url, format_choice)` is appended to the in-memory list
and `save_failed_list` runs. -/
def downloadVideoGo (env : Env) (u f : String) :
    Nat → Nat → LedgerState → Nat → Nat → DVResult
  | 0, _, st, fc, fl =>
      { st := st, fetchCalls := fc, undeleted := fl, delivered := false }
  | r + 1, a, st, fc, fl =>
      match dvOutcome env u f a with
      | .ok =>
          { st := st, fetchCalls := fc + 1, undeleted := fl, delivered := true }
      | .sendFail =>
          if r = 0 then
            { st := saveFailedList { st with mem := st.mem ++ [⟨u, f⟩] },
              fetchCalls := fc + 1, undeleted := fl + 1, delivered := false }
          else downloadVideoGo env u f r (a + 1) st (fc + 1) (fl + 1)
      | .fetchFail =>
          if r = 0 then
            { st := saveFailedList { st with mem := st.mem ++ [⟨u, f⟩] },
              fetchCalls := fc + 1, undeleted := fl, delivered := false }
          else downloadVideoGo env u f r (a + 1) st (fc + 1) fl

/-- `download_video(chat_id, u, f, max_retries)` acting on the requester's
ledger state. -/
def downloadVideo (env : Env) (u f : String) (maxRetries : Nat)
    (st : LedgerState) : DVResult :=
  downloadVideoGo env u f maxRetries 0 st 0 0

/-- `download_video` with the default `max_retries = 3`, as every call
site invokes it; projected to the ledger state. -/
def dvStep (env : Env) (u f : String) (st : LedgerState) : LedgerState :=
  (downloadVideo env u f 3 st).st

/-- Resolution of one playlist item in `download_playlist`'s inner loop. -/
inductive ItemResult where
  | success
  | failure
  | skipped
  deriving DecidableEq, Repr

/-- Inner loop `for attempt in range(max_retries)` of `download_playlist`
(lines 314-334) for one `video_url`: on success the file path is recorded
and the loop breaks; on the last failed attempt `(video_url, format_choice)`
is recorded as failed.  `skipped` occurs only when the range is empty.
The second component counts fetch invocations. -/
def playlistItemGo (succ : Nat → Bool) : Nat → Nat → Nat → ItemResult × Nat
  | 0, _, fc => (.skipped, fc)
  | r + 1, a, fc =>
      if succ a then (.success, fc + 1)
      else if r = 0 then (.failure, fc + 1)
      else playlistItemGo succ r (a + 1) (fc + 1)

/-- One playlist item driven through up to `maxRetries` attempts. -/
def playlistItem (succ : Nat → Bool) (maxRetries : Nat) : ItemResult × Nat :=
  playlistItemGo succ maxRetries 0 0

/-- The accumulation loop `for video_url in playlist.video_urls` of
`download_playlist` (lines 311-334): ordered successes (file paths stand
in for their source urls) and ordered failures. -/
def playlistLoop (env : Env) (f : String) (maxRetries : Nat) :
    List String → List String × List FailedItem
  | [] => ([], [])
  | u :: rest =>
      let res := playlistItem (fun a => env.fetchOk u f a) maxRetries
      let tailRes := playlistLoop env f maxRetries rest
      match res.1 with
      | .success => (u :: tailRes.1, tailRes.2)
      | .failure => (tailRes.1, ⟨u, f⟩ :: tailRes.2)
      | .skipped => tailRes

/-- Result of a `download_playlist` call.  `aborted` records that an
exception escaped to the outer handler (playlist resolution failed, or
sending the zip raised — in which case the failed-videos block at lines
354-367 never runs). -/
structure DPResult where
  st : LedgerState
  downloaded : List String
  failed : List FailedItem
  delivered : Bool
  aborted : Bool
  deriving DecidableEq, Repr

/-- `download_playlist(chat_id, url, f, maxRetries)` (lines 291-371): the
whole body sits in one `try`, so a failure to resolve the playlist or to
send the zip skips everything after it, including failed-item bookkeeping. -/
def downloadPlaylist (env : Env) (url f : String) (maxRetries : Nat)
    (st : LedgerState) : DPResult :=
  match env.resolve url with
  | none =>
      { st := st, downloaded := [], failed := [], delivered := false,
        aborted := true }
  | some urls =>
      let acc := playlistLoop env f maxRetries urls
      if acc.1.isEmpty then
        if acc.2.isEmpty then
          { st := st, downloaded := acc.1, failed := acc.2,
            delivered := false, aborted := false }
        else
          { st := saveFailedList { st with mem := st.mem ++ acc.2 },
            downloaded := acc.1, failed := acc.2,
            delivered := false, aborted := false }
      else if env.zipSendOk url f then
        if acc.2.isEmpty then
          { st := st, downloaded := acc.1, failed := acc.2,
            delivered := true, aborted := false }
        else
          { st := saveFailedList { st with mem := st.mem ++ acc.2 },
            downloaded := acc.1, failed := acc.2,
            delivered := true, aborted := false }
      else
        { st := st, downloaded := acc.1, failed := acc.2,
          delivered := false, aborted := true }

/-- `download_playlist` with the default `max_retries = 3`, projected to
the ledger state. -/
def dpStep (env : Env) (u f : String) (st : LedgerState) : LedgerState :=
  (downloadPlaylist env u f 3 st).st

/-- Collection test at the format-selection dispatch,
`process_format_selection` line 231: `'list=' in url`. -/
def formatSelTreatsAsPlaylist (url : String) : Bool :=
  containsSub "list=" url

/-- Collection test at the retry-all dispatch, `process_retry_selection`
line 153: `'list=' in url`. -/
def retryAllTreatsAsPlaylist (url : String) : Bool :=
  containsSub "list=" url

/-- Collection test at the specific-index retry dispatch,
`process_specific_retry` line 193: `'playlist' in url`. -/
def specificRetryTreatsAsPlaylist (url : String) : Bool :=
  containsSub "playlist" url

/-- One retried item inside the `'Tentar Todos'` branch (lines 152-156). -/
def retryAllStep (env : Env) (item : FailedItem) (st : LedgerState) :
    LedgerState :=
  if retryAllTreatsAsPlaylist item.url then dpStep env item.url item.fmt st
  else dvStep env item.url item.fmt st

/-- One retried item inside `process_specific_retry` (lines 190-196). -/
def specificRetryStep (env : Env) (item : FailedItem) (st : LedgerState) :
    LedgerState :=
  if specificRetryTreatsAsPlaylist item.url then dpStep env item.url item.fmt st
  else dvStep env item.url item.fmt st

/-- The loop `for url, format_choice in failed_list` of the
`'Tentar Todos'` branch.  `failed_list` aliases the stored in-memory list,
and a failing `download_video` appends to that same list, so the CPython
list iterator (which re-reads the live length at every step) also visits
the items appended during the loop.  `i` is the iterator's index; `fuel`
bounds the number of iterations we are willing to unfold, with `none`
meaning the loop has not finished within that budget. -/
def retryAllGo (env : Env) : Nat → Nat → LedgerState → Option LedgerState
  | 0, _, _ => none
  | fuel + 1, i, st =>
      if h : i < st.mem.length then
        retryAllGo env fuel (i + 1) (retryAllStep env (st.mem.get ⟨i, h⟩) st)
      else some st

/-- The `'Tentar Todos'` branch of `process_retry_selection`
(lines 150-159): run the loop, then set the in-memory list to `[]`
(line 159) without calling `save_failed_list`. -/
def processRetryAll (env : Env) (fuel : Nat) (st : LedgerState) :
    Option LedgerState :=
  (retryAllGo env fuel 0 st).map (fun st2 => { st2 with mem := [] })

/-- The loop `for idx in selected_indices` of `process_specific_retry`
(lines 190-196).  The bound check `0 <= idx < len(failed_list)` reads the
*live* length, which grows when a retried item fails and is re-appended. -/
def specificRetryLoop (env : Env) : List Int → LedgerState → LedgerState
  | [], st => st
  | idx :: rest, st =>
      let st2 :=
        if h : 0 ≤ idx ∧ idx.toNat < st.mem.length then
          specificRetryStep env (st.mem.get ⟨idx.toNat, h.2⟩) st
        else st
      specificRetryLoop env rest st2

/-- The list comprehension of lines 199-202:
`[item for idx, item in enumerate(failed_list) if idx not in selected_indices]`.
`sel` holds the user's numbers already decremented by one, as Python ints
(so possibly negative). -/
def removeByIndices (l : List FailedItem) (sel : List Int) : List FailedItem :=
  ((l.enum).filter (fun p => ! sel.contains (Int.ofNat p.1))).map Prod.snd

/-- `process_specific_retry` (lines 177-208) for an already-parsed index
list: retry each selected in-range item, then replace the in-memory list
by the filtered one.  No `save_failed_list` call follows the filter. -/
def processSpecificRetry (env : Env) (sel : List Int) (st : LedgerState) :
    LedgerState :=
  let st2 := specificRetryLoop env sel st
  { st2 with mem := removeByIndices st2.mem sel }

/-- Observable result of the catch-all message handler. -/
structure UrlHandlerResult where
  sent : List String
  session : Option String
  ledger : LedgerState
  deriving DecidableEq, Repr

/-- The catch-all handler `handle_url` (lines 82-108): only when the text
contains `'youtube.com'` or `'youtu.be'` does it store the url in the
session map `user_data[chat_id]`, send the format prompt and register the
next-step handler; otherwise it does nothing at all. -/
def handleUrl (text : String) (session : Option String) (st : LedgerState) :
    UrlHandlerResult :=
  if containsSub "youtube.com" text || containsSub "youtu.be" text then
    { sent := ["Escolha o formato de download:"], session := some text,
      ledger := st }
  else
    { sent := [], session := session, ledger := st }

/-- JSON values as far as the ledger file needs them: `json.dump` of the
failed list writes an array of two-element arrays of strings (a Python
tuple serialises as a JSON array).  The byte-level encoder and the file
system are external collaborators, so persistence is modelled at the JSON
value level. -/
inductive Json where
  | str : String → Json
  | arr : List Json → Json

/-- Writer side of `save_failed_list`: one `(url, format_choice)` tuple. -/
def encodeItem (it : FailedItem) : Json :=
  .arr [.str it.url, .str it.fmt]

/-- Writer side of `save_failed_list`: the whole list. -/
def encodeLedger (l : List FailedItem) : Json :=
  .arr (l.map encodeItem)

/-- Modelled from the spec: `bot.py` never reads
`failed_lists/{chat_id}_failed_downloads.json` back (no loader exists in
the repository), but the spec's persistence contract (a keyed store with
read-all-for-key, surviving restart) calls for the inverse of the writer:
decode one two-element array of strings back into a `FailedItem`. -/
def decodeItem : Json → Option FailedItem
  | .arr [.str u, .str f] => some ⟨u, f⟩
  | _ => none

/-- Modelled from the spec: element-wise loader, see `decodeItem`. -/
def decodeItems : List Json → Option (List FailedItem)
  | [] => some []
  | j :: rest =>
      match decodeItem j, decodeItems rest with
      | some it, some its => some (it :: its)
      | _, _ => none

/-- Modelled from the spec: top-level loader, see `decodeItem`. -/
def decodeLedger : Json → Option (List FailedItem)
  | .arr js => decodeItems js
  | _ => none

/-! ### Concrete fixtures used by witnesses and counterexamples -/

/-- Environment where url `"a"` downloads and delivers first try and every
other url fails to fetch on every attempt; playlists never resolve. -/
def env1 : Env :=
  { fetchOk := fun u _ _ => u == "a",
    sendOk := fun _ _ _ => true,
    resolve := fun _ => none,
    zipSendOk := fun _ _ => true }

/-- Environment where every fetch succeeds but every delivery fails. -/
def envSendFail : Env :=
  { fetchOk := fun _ _ _ => true,
    sendOk := fun _ _ _ => false,
    resolve := fun _ => none,
    zipSendOk := fun _ _ => true }

/-- Environment where every fetch fails. -/
def envFetchFail : Env :=
  { fetchOk := fun _ _ _ => false,
    sendOk := fun _ _ _ => true,
    resolve := fun _ => none,
    zipSendOk := fun _ _ => true }

/-- Environment whose fetches succeed exactly on attempt index 1. -/
def envSecondTry : Env :=
  { fetchOk := fun _ _ j => j == 1,
    sendOk := fun _ _ _ => true,
    resolve := fun _ => none,
    zipSendOk := fun _ _ => true }

/-- Environment resolving any playlist url to the single video `"x"`,
whose fetches always fail. -/
def envOneBadItem : Env :=
  { fetchOk := fun _ _ _ => false,
    sendOk := fun _ _ _ => true,
    resolve := fun _ => some ["x"],
    zipSendOk := fun _ _ => true }

def itemA : FailedItem := ⟨"a", "MP4"⟩

def itemB : FailedItem := ⟨"b", "MP4"⟩

/-- Ledger holding `itemA` then `itemB`, mirrored on disk. -/
def st1 : LedgerState := ⟨[itemA, itemB], some [itemA, itemB]⟩

/-- Ledger holding just `itemA`, mirrored on disk. -/
def stA : LedgerState := ⟨[itemA], some [itemA]⟩

/-- Empty ledger, nothing on disk yet. -/
def st0 : LedgerState := ⟨[], none⟩

/-! ### Behaviour of the `download_video` retry loop -/

lemma downloadVideoGo_fetchCalls_le (env : Env) (u f : String) :
    ∀ (r a fc fl : Nat) (st : LedgerState),
      (downloadVideoGo env u f r a st fc fl).fetchCalls ≤ fc + r := by
  intro r
  induction r with
  | zero => intro a fc fl st; simp [downloadVideoGo]
  | succ n ih =>
    intro a fc fl st
    rw [downloadVideoGo]
    cases h : dvOutcome env u f a with
    | ok => simp
    | sendFail =>
      by_cases hn : n = 0
      · simp [hn]
      · simp only [hn, if_false]
        have := ih (a + 1) (fc + 1) (fl + 1) st
        omega
    | fetchFail =>
      by_cases hn : n = 0
      · simp [hn]
      · simp only [hn, if_false]
        have := ih (a + 1) (fc + 1) fl st
        omega

lemma downloadVideoGo_first_ok (env : Env) (u f : String) :
    ∀ (k r a fc fl : Nat) (st : LedgerState), k < r →
      dvOutcome env u f (a + k) = .ok →
      (∀ j, j < k → dvOutcome env u f (a + j) ≠ .ok) →
      (downloadVideoGo env u f r a st fc fl).st = st ∧
      (downloadVideoGo env u f r a st fc fl).fetchCalls = fc + k + 1 ∧
      (downloadVideoGo env u f r a st fc fl).delivered = true := by
  intro k
  induction k with
  | zero =>
    intro r a fc fl st hkr hok _
    obtain ⟨r', rfl⟩ : ∃ r', r = r' + 1 := ⟨r - 1, by omega⟩
    simp only [Nat.add_zero] at hok
    rw [downloadVideoGo, hok]
    simp
  | succ m ih =>
    intro r a fc fl st hkr hok hprev
    obtain ⟨r', rfl⟩ : ∃ r', r = r' + 1 := ⟨r - 1, by omega⟩
    have h0 : dvOutcome env u f a ≠ .ok := by
      have := hprev 0 (by omega)
      simpa using this
    have hr' : r' ≠ 0 := by omega
    have hok' : dvOutcome env u f (a + 1 + m) = .ok := by
      have e : a + 1 + m = a + (m + 1) := by omega
      rw [e]; exact hok
    have hprev' : ∀ j, j < m → dvOutcome env u f (a + 1 + j) ≠ .ok := by
      intro j hj
      have e : a + 1 + j = a + (j + 1) := by omega
      rw [e]; exact hprev (j + 1) (by omega)
    rw [downloadVideoGo]
    cases h : dvOutcome env u f a with
    | ok => exact absurd h h0
    | sendFail =>
      simp only [hr', if_false]
      have := ih r' (a + 1) (fc + 1) (fl + 1) st (by omega) hok' hprev'
      exact ⟨this.1, by omega, this.2.2⟩
    | fetchFail =>
      simp only [hr', if_false]
      have := ih r' (a + 1) (fc + 1) fl st (by omega) hok' hprev'
      exact ⟨this.1, by omega, this.2.2⟩

lemma downloadVideoGo_all_fail (env : Env) (u f : String) :
    ∀ (r a fc fl : Nat) (st : LedgerState), 0 < r →
      (∀ j, j < r → dvOutcome env u f (a + j) ≠ .ok) →
      (downloadVideoGo env u f r a st fc fl).st =
        saveFailedList { st with mem := st.mem ++ [⟨u, f⟩] } ∧
      (downloadVideoGo env u f r a st fc fl).delivered = false := by
  intro r
  induction r with
  | zero => intro a fc fl st h; omega
  | succ n ih =>
    intro a fc fl st _ hfail
    have h0 : dvOutcome env u f a ≠ .ok := by
      have := hfail 0 (by omega)
      simpa using this
    have hfail' : ∀ j, j < n → dvOutcome env u f (a + 1 + j) ≠ .ok := by
      intro j hj
      have e : a + 1 + j = a + (j + 1) := by omega
      rw [e]; exact hfail (j + 1) (by omega)
    rw [downloadVideoGo]
    cases h : dvOutcome env u f a with
    | ok => exact absurd h h0
    | sendFail =>
      by_cases hn : n = 0
      · simp [hn]
      · simp only [hn, if_false]
        exact ih (a + 1) (fc + 1) (fl + 1) st (by omega) hfail'
    | fetchFail =>
      by_cases hn : n = 0
      · simp [hn]
      · simp only [hn, if_false]
        exact ih (a + 1) (fc + 1) fl st (by omega) hfail'

lemma downloadVideoGo_all_sendFail (env : Env) (u f : String) :
    ∀ (r a fc fl : Nat) (st : LedgerState), 0 < r →
      (∀ j, j < r → dvOutcome env u f (a + j) = .sendFail) →
      downloadVideoGo env u f r a st fc fl =
        { st := saveFailedList { st with mem := st.mem ++ [⟨u, f⟩] },
          fetchCalls := fc + r, undeleted := fl + r, delivered := false } := by
  intro r
  induction r with
  | zero => intro a fc fl st h; omega
  | succ n ih =>
    intro a fc fl st _ hall
    have h0 : dvOutcome env u f a = .sendFail := by
      have := hall 0 (by omega)
      simpa using this
    rw [downloadVideoGo, h0]
    by_cases hn : n = 0
    · subst hn; simp
    · simp only [hn, if_false]
      have hall' : ∀ j, j < n → dvOutcome env u f (a + 1 + j) = .sendFail := by
        intro j hj
        have e : a + 1 + j = a + (j + 1) := by omega
        rw [e]; exact hall (j + 1) (by omega)
      rw [ih (a + 1) (fc + 1) (fl + 1) st (by omega) hall']
      simp only [DVResult.mk.injEq, and_true, true_and]
      omega

lemma downloadVideoGo_state_cases (env : Env) (u f : String) :
    ∀ (r a fc fl : Nat) (st : LedgerState),
      (downloadVideoGo env u f r a st fc fl).st = st ∨
      (downloadVideoGo env u f r a st fc fl).st =
        saveFailedList { st with mem := st.mem ++ [⟨u, f⟩] } := by
  intro r
  induction r with
  | zero => intro a fc fl st; left; rfl
  | succ n ih =>
    intro a fc fl st
    rw [downloadVideoGo]
    cases h : dvOutcome env u f a with
    | ok => left; rfl
    | sendFail =>
      by_cases hn : n = 0
      · subst hn; right; rfl
      · simp only [hn, if_false]
        exact ih (a + 1) (fc + 1) (fl + 1) st
    | fetchFail =>
      by_cases hn : n = 0
      · subst hn; right; rfl
      · simp only [hn, if_false]
        exact ih (a + 1) (fc + 1) fl st

/-! ### Behaviour of the `download_playlist` per-item loop -/

lemma playlistItemGo_fetchCalls_le (succ : Nat → Bool) :
    ∀ (r a fc : Nat), (playlistItemGo succ r a fc).2 ≤ fc + r := by
  intro r
  induction r with
  | zero => intro a fc; simp [playlistItemGo]
  | succ n ih =>
    intro a fc
    rw [playlistItemGo]
    by_cases hs : succ a
    · simp [hs]
    · by_cases hn : n = 0
      · simp [hs, hn]
      · simp only [hs, hn, if_false, Bool.false_eq_true]
        have := ih (a + 1) (fc + 1)
        omega

lemma playlistItemGo_first_ok (succ : Nat → Bool) :
    ∀ (k r a fc : Nat), k < r → succ (a + k) = true →
      (∀ j, j < k → succ (a + j) = false) →
      playlistItemGo succ r a fc = (.success, fc + k + 1) := by
  intro k
  induction k with
  | zero =>
    intro r a fc hkr hok _
    obtain ⟨r', rfl⟩ : ∃ r', r = r' + 1 := ⟨r - 1, by omega⟩
    simp only [Nat.add_zero] at hok
    rw [playlistItemGo]
    simp [hok]
  | succ m ih =>
    intro r a fc hkr hok hprev
    obtain ⟨r', rfl⟩ : ∃ r', r = r' + 1 := ⟨r - 1, by omega⟩
    have h0 : succ a = false := by
      have := hprev 0 (by omega)
      simpa using this
    have hr' : r' ≠ 0 := by omega
    have hok' : succ (a + 1 + m) = true := by
      have e : a + 1 + m = a + (m + 1) := by omega
      rw [e]; exact hok
    have hprev' : ∀ j, j < m → succ (a + 1 + j) = false := by
      intro j hj
      have e : a + 1 + j = a + (j + 1) := by omega
      rw [e]; exact hprev (j + 1) (by omega)
    rw [playlistItemGo]
    simp only [h0, Bool.false_eq_true, if_false, hr']
    rw [ih r' (a + 1) (fc + 1) (by omega) hok' hprev']
    simp only [Prod.mk.injEq, true_and]
    omega

lemma playlistItem_resolves (succ : Nat → Bool) (N : Nat) (hN : 0 < N) :
    (playlistItem succ N).1 = .success ∨ (playlistItem succ N).1 = .failure := by
  unfold playlistItem
  suffices h : ∀ (r a fc : Nat), 0 < r →
      (playlistItemGo succ r a fc).1 = .success ∨
      (playlistItemGo succ r a fc).1 = .failure from h N 0 0 hN
  intro r
  induction r with
  | zero => intro a fc h; omega
  | succ n ih =>
    intro a fc _
    rw [playlistItemGo]
    by_cases hs : succ a
    · simp [hs]
    · by_cases hn : n = 0
      · simp [hs, hn]
      · simp only [hs, hn, if_false, Bool.false_eq_true]
        exact ih (a + 1) (fc + 1) (by omega)

lemma playlistLoop_length (env : Env) (f : String) (N : Nat) (hN : 0 < N) :
    ∀ urls : List String,
      (playlistLoop env f N urls).1.length + (playlistLoop env f N urls).2.length
        = urls.length := by
  intro urls
  induction urls with
  | nil => simp [playlistLoop]
  | cons u rest ih =>
    rw [playlistLoop]
    rcases playlistItem_resolves (fun a => env.fetchOk u f a) N hN with h | h <;>
      · simp only [h]
        simp only [List.length_cons]
        omega

lemma playlistLoop_append (env : Env) (f : String) (N : Nat) :
    ∀ us vs : List String,
      playlistLoop env f N (us ++ vs) =
        ((playlistLoop env f N us).1 ++ (playlistLoop env f N vs).1,
         (playlistLoop env f N us).2 ++ (playlistLoop env f N vs).2) := by
  intro us vs
  induction us with
  | nil => simp [playlistLoop]
  | cons u rest ih =>
    rw [List.cons_append, playlistLoop, playlistLoop]
    cases h : (playlistItem (fun a => env.fetchOk u f a) N).1 <;> simp [h, ih]

lemma downloadPlaylist_state_cases (env : Env) (url f : String) (N : Nat)
    (st : LedgerState) :
    (downloadPlaylist env url f N st).st = st ∨
    ∃ fs, (downloadPlaylist env url f N st).st =
      saveFailedList { st with mem := st.mem ++ fs } := by
  unfold downloadPlaylist
  cases env.resolve url with
  | none => left; rfl
  | some urls =>
    dsimp only
    split
    · split
      · left; rfl
      · right; exact ⟨_, rfl⟩
    · split
      · split
        · left; rfl
        · right; exact ⟨_, rfl⟩
      · left; rfl

/-! ### Behaviour of `process_specific_retry`'s removal filter -/

lemma enumFrom_fst_lt {α : Type} :
    ∀ (l : List α) (n : Nat) (p : Nat × α), p ∈ l.enumFrom n → p.1 < n + l.length := by
  intro l
  induction l with
  | nil => intro n p h; simp at h
  | cons x xs ih =>
    intro n p h
    rw [List.enumFrom_cons] at h
    rcases List.mem_cons.mp h with rfl | h
    · simp
    · have := ih (n + 1) p h
      simp only [List.length_cons]
      omega

lemma contains_eq_false_of_forall_ne {x : Int} :
    ∀ sel : List Int, (∀ k ∈ sel, x ≠ k) → sel.contains x = false := by
  intro sel
  induction sel with
  | nil => intro _; rfl
  | cons k rest ih =>
    intro h
    rw [List.contains_cons]
    have h1 : (x == k) = false :=
      beq_eq_false_iff_ne.mpr (h k (List.mem_cons_self k rest))
    rw [h1, Bool.false_or]
    exact ih (fun k' hk' => h k' (List.mem_cons_of_mem _ hk'))

lemma removeByIndices_oor_cons (l : List FailedItem) (sel : List Int) (k : Int)
    (hk : k < 0 ∨ (l.length : Int) ≤ k) :
    removeByIndices l (k :: sel) = removeByIndices l sel := by
  unfold removeByIndices
  congr 1
  apply List.filter_congr
  intro p hp
  have hlt : p.1 < l.length := by
    have := enumFrom_fst_lt l 0 p hp
    omega
  have hne : (Int.ofNat p.1) ≠ k := by
    simp only [Int.ofNat_eq_natCast]
    rcases hk with h | h <;> omega
  rw [List.contains_cons, beq_eq_false_iff_ne.mpr hne, Bool.false_or]

lemma removeByIndices_all_oor (l : List FailedItem) (sel : List Int)
    (hsel : ∀ k ∈ sel, k < 0 ∨ (l.length : Int) ≤ k) :
    removeByIndices l sel = l := by
  unfold removeByIndices
  have hfil : (l.enum).filter (fun p => ! sel.contains (Int.ofNat p.1)) = l.enum := by
    apply List.filter_eq_self.mpr
    intro p hp
    have hlt : p.1 < l.length := by
      have := enumFrom_fst_lt l 0 p hp
      omega
    have hne : ∀ k ∈ sel, (Int.ofNat p.1) ≠ k := by
      intro k hk
      simp only [Int.ofNat_eq_natCast]
      rcases hsel _ hk with h | h <;> omega
    rw [contains_eq_false_of_forall_ne sel hne]
    rfl
  rw [hfil]
  exact List.enumFrom_map_snd 0 l

lemma specificRetryLoop_all_oor (env : Env) :
    ∀ (sel : List Int) (st : LedgerState),
      (∀ k ∈ sel, k < 0 ∨ (st.mem.length : Int) ≤ k) →
      specificRetryLoop env sel st = st := by
  intro sel
  induction sel with
  | nil => intro st _; rfl
  | cons k rest ih =>
    intro st hsel
    have hk := hsel k (List.mem_cons_self k rest)
    have hguard : ¬ (0 ≤ k ∧ k.toNat < st.mem.length) := by
      rintro ⟨h0, hlt⟩
      rcases hk with h | h <;> omega
    rw [specificRetryLoop]
    simp only [hguard, dite_false]
    exact ih st (fun k' hk' => hsel k' (List.mem_cons_of_mem _ hk'))

lemma processSpecificRetry_all_oor (env : Env) (st : LedgerState) (sel : List Int)
    (hsel : ∀ k ∈ sel, k < 0 ∨ (st.mem.length : Int) ≤ k) :
    processSpecificRetry env sel st = st := by
  show ({ mem := removeByIndices (specificRetryLoop env sel st).mem sel,
          disk := (specificRetryLoop env sel st).disk } : LedgerState) = st
  rw [specificRetryLoop_all_oor env sel st hsel,
    removeByIndices_all_oor st.mem sel hsel]

/-! ### Divergence of the retry-all loop under a persistently failing item -/

lemma mem_drop_append_last {α : Type} (b : α) :
    ∀ (l : List α) (n : Nat), n ≤ l.length → b ∈ (l ++ [b]).drop n := by
  intro l
  induction l with
  | nil =>
    intro n hn
    have : n = 0 := by simpa using hn
    subst this
    simp
  | cons x xs ih =>
    intro n hn
    cases n with
    | zero => simp
    | succ m =>
      rw [List.cons_append, List.drop_succ_cons]
      exact ih m (by simpa using hn)

lemma retryAllStep_env1_a (st : LedgerState) : retryAllStep env1 itemA st = st := rfl

lemma retryAllStep_env1_b (st : LedgerState) :
    retryAllStep env1 itemB st =
      ⟨st.mem ++ [itemB], some (st.mem ++ [itemB])⟩ := rfl

lemma retryAllGo_env1_diverges :
    ∀ (fuel i : Nat) (st : LedgerState),
      (∀ it ∈ st.mem, it = itemA ∨ it = itemB) →
      itemB ∈ st.mem.drop i →
      retryAllGo env1 fuel i st = none := by
  intro fuel
  induction fuel with
  | zero => intro i st _ _; rfl
  | succ n ih =>
    intro i st hmem hdrop
    have hi : i < st.mem.length := by
      by_contra hnot
      rw [List.drop_eq_nil_iff.mpr (by omega)] at hdrop
      exact absurd hdrop (List.not_mem_nil _)
    rw [retryAllGo]
    simp only [hi, dite_true]
    have hget : st.mem.get ⟨i, hi⟩ = itemA ∨ st.mem.get ⟨i, hi⟩ = itemB :=
      hmem _ (st.mem.get_mem i hi)
    rcases hget with ha | hb
    · rw [ha, retryAllStep_env1_a]
      apply ih (i + 1) st hmem
      have hd : st.mem.drop i = st.mem.get ⟨i, hi⟩ :: st.mem.drop (i + 1) :=
        List.drop_eq_getElem_cons hi
      rw [hd, ha] at hdrop
      rcases List.mem_cons.mp hdrop with h | h
      · exact absurd h (by decide)
      · exact h
    · rw [hb, retryAllStep_env1_b]
      apply ih (i + 1)
      · intro it hit
        rcases List.mem_append.mp hit with h | h
        · exact hmem it h
        · right; simpa using h
      · exact mem_drop_append_last itemB st.mem (i + 1) hi

/-! ### Claim theorems -/

/-- C1: the claim says that after retry-all over a 2-item ledger where one
item now succeeds and one still fails, the ledger is reduced to exactly the
still-failing item.  On the code this state is never reached: the
`'Tentar Todos'` loop iterates over the same list object that the failing
retry re-appends to, so the still-failing item `itemB` is visited again and
again and the loop never terminates — for every iteration budget `fuel`
the branch has not completed (and had the loop been over a snapshot, line
159 would then have reset the list to `[]`, not to `[itemB]`). -/
theorem c1_retry_all_never_completes :
    ∀ fuel : Nat, processRetryAll env1 fuel st1 = none := by
  intro fuel
  unfold processRetryAll
  rw [retryAllGo_env1_diverges fuel 0 st1 (by decide) (by decide)]
  rfl

/-- C2 counterexample: a specific-index retry whose selected download now
succeeds removes the item from the in-memory list and completes, yet the
durable file still holds the old list — removal-by-indices is not mirrored
to storage before the operation completes, contradicting the claim. -/
theorem c2_removal_skips_persistence :
    (processSpecificRetry env1 [0] stA).mem = [] ∧
    (processSpecificRetry env1 [0] stA).disk = some [itemA] := by decide

/-- C2 as amended: the single-item append (`download_video`) and the batch
extend (`download_playlist`) do persist the in-memory list whenever they
mutate it, but `process_specific_retry`'s removal step touches only the
in-memory list — the durable file after the call is whatever the retry
phase left, never re-written by the removal. -/
theorem c2_mutation_persistence :
    (∀ (env : Env) (u f : String) (N : Nat) (st : LedgerState),
        (downloadVideo env u f N st).st.mem ≠ st.mem →
        (downloadVideo env u f N st).st.disk
          = some (downloadVideo env u f N st).st.mem) ∧
    (∀ (env : Env) (url f : String) (N : Nat) (st : LedgerState),
        (downloadPlaylist env url f N st).st.mem ≠ st.mem →
        (downloadPlaylist env url f N st).st.disk
          = some (downloadPlaylist env url f N st).st.mem) ∧
    (∀ (env : Env) (sel : List Int) (st : LedgerState),
        (processSpecificRetry env sel st).disk
          = (specificRetryLoop env sel st).disk) := by
  refine ⟨?_, ?_, ?_⟩
  · intro env u f N st hne
    rcases downloadVideoGo_state_cases env u f N 0 0 0 st with h | h
    · exact absurd (congrArg LedgerState.mem h) hne
    · unfold downloadVideo
      rw [h]
      rfl
  · intro env url f N st hne
    rcases downloadPlaylist_state_cases env url f N st with h | ⟨fs, h⟩
    · exact absurd (congrArg LedgerState.mem h) hne
    · rw [h]
      rfl
  · intro env sel st
    rfl

/-- Witness for `c2_mutation_persistence` at concrete inputs: a failing
single download persists its append, a playlist with one failing item
persists its extend, and a specific retry leaves the disk exactly as the
retry phase left it. -/
theorem c2_mutation_persistence_witness :
    (downloadVideo envFetchFail "u" "MP4" 3 st0).st.disk
      = some (downloadVideo envFetchFail "u" "MP4" 3 st0).st.mem ∧
    (downloadPlaylist envOneBadItem "p" "MP3" 3 st0).st.disk
      = some (downloadPlaylist envOneBadItem "p" "MP3" 3 st0).st.mem ∧
    (processSpecificRetry env1 [0] stA).disk
      = (specificRetryLoop env1 [0] stA).disk :=
  ⟨c2_mutation_persistence.1 envFetchFail "u" "MP4" 3 st0 (by decide),
   c2_mutation_persistence.2.1 envOneBadItem "p" "MP3" 3 st0 (by decide),
   c2_mutation_persistence.2.2 env1 [0] stA⟩

/-- C3: `save_failed_list` mirrors the in-memory list to the durable
record, and decoding the JSON encoding of any failed-item list returns
exactly that list, in order (the loader is modelled from the spec, since
the repository writes the file but never reads it back). -/
theorem c3_ledger_roundtrip :
    ∀ (st : LedgerState) (l : List FailedItem),
      (saveFailedList st).disk = some st.mem ∧
      decodeLedger (encodeLedger l) = some l := by
  intro st l
  refine ⟨rfl, ?_⟩
  induction l with
  | nil => rfl
  | cons it rest ih =>
    have ih' : decodeItems (rest.map encodeItem) = some rest := ih
    show decodeItems (List.map encodeItem (it :: rest)) = some (it :: rest)
    rw [List.map_cons, decodeItems, ih']
    rfl

/-- C4 counterexample: with every fetch succeeding and every delivery
failing, `download_video` appends the item to the failed ledger (delivery
failure is treated as a download failure, retried and recorded) and leaves
all three downloaded artifacts on disk (`os.remove` is skipped whenever
`send_document` raises) — both halves of the claim fail. -/
theorem c4_delivery_failure_counterexample :
    (downloadVideo envSendFail "u" "MP4" 3 st0).st.mem = [⟨"u", "MP4"⟩] ∧
    (downloadVideo envSendFail "u" "MP4" 3 st0).undeleted = 3 := by decide

/-- C4 as amended: a delivery failure is caught by the same handler as a
fetch failure — the attempt is retried; when every attempt ends in a
delivery failure the `(url, format)` pair is appended to the ledger and
persisted; and the artifact of each failed-delivery attempt is left
undeleted. -/
theorem c4_delivery_failure_behaviour :
    ∀ (env : Env) (u f : String) (N : Nat) (st : LedgerState), 0 < N →
      (∀ j, j < N → dvOutcome env u f j = .sendFail) →
      downloadVideo env u f N st =
        { st := saveFailedList { st with mem := st.mem ++ [⟨u, f⟩] },
          fetchCalls := N, undeleted := N, delivered := false } := by
  intro env u f N st hN hall
  unfold downloadVideo
  have h := downloadVideoGo_all_sendFail env u f N 0 0 0 st hN
    (fun j hj => by simpa using hall j hj)
  simpa using h

/-- Witness for `c4_delivery_failure_behaviour` on a concrete run. -/
theorem c4_delivery_failure_behaviour_witness :
    downloadVideo envSendFail "u" "MP4" 3 st0 =
      { st := saveFailedList { st0 with mem := st0.mem ++ [⟨"u", "MP4"⟩] },
        fetchCalls := 3, undeleted := 3, delivered := false } :=
  c4_delivery_failure_behaviour envSendFail "u" "MP4" 3 st0 (by decide) (by decide)

/-- C5: both retry loops invoke the fetch operation at most `N` times, and
an attempt that succeeds ends the loop at once: if the first successful
attempt is attempt `k`, exactly `k + 1` fetch invocations happen, the
single download returns delivered with the ledger untouched, and the
playlist item resolves as a success. -/
theorem c5_retry_bound_and_first_success :
    (∀ (env : Env) (u f : String) (N : Nat) (st : LedgerState),
        (downloadVideo env u f N st).fetchCalls ≤ N) ∧
    (∀ (env : Env) (u f : String) (N : Nat) (st : LedgerState) (k : Nat),
        k < N → dvOutcome env u f k = .ok →
        (∀ j, j < k → dvOutcome env u f j ≠ .ok) →
        (downloadVideo env u f N st).st = st ∧
        (downloadVideo env u f N st).fetchCalls = k + 1 ∧
        (downloadVideo env u f N st).delivered = true) ∧
    (∀ (succ : Nat → Bool) (N : Nat), (playlistItem succ N).2 ≤ N) ∧
    (∀ (succ : Nat → Bool) (N k : Nat),
        k < N → succ k = true → (∀ j, j < k → succ j = false) →
        playlistItem succ N = (.success, k + 1)) := by
  refine ⟨?_, ?_, ?_, ?_⟩
  · intro env u f N st
    have := downloadVideoGo_fetchCalls_le env u f N 0 0 0 st
    simpa using this
  · intro env u f N st k hkN hok hprev
    unfold downloadVideo
    have h := downloadVideoGo_first_ok env u f k N 0 0 0 st hkN
      (by simpa using hok) (fun j hj => by simpa using hprev j hj)
    refine ⟨h.1, ?_, h.2.2⟩
    have h2 := h.2.1
    omega
  · intro succ N
    have := playlistItemGo_fetchCalls_le succ N 0 0
    simpa using this
  · intro succ N k hkN hok hprev
    have := playlistItemGo_first_ok succ k N 0 0 hkN
      (by simpa using hok) (fun j hj => by simpa using hprev j hj)
    unfold playlistItem
    rw [this]
    simp only [Prod.mk.injEq, true_and]
    omega

/-- Witness for `c5_retry_bound_and_first_success`: fetches succeed only on
attempt index 1, so both loops stop after exactly 2 invocations. -/
theorem c5_retry_witness :
    (downloadVideo envSecondTry "u" "MP4" 3 st0).st = st0 ∧
    (downloadVideo envSecondTry "u" "MP4" 3 st0).fetchCalls = 2 ∧
    (downloadVideo envSecondTry "u" "MP4" 3 st0).delivered = true ∧
    playlistItem (fun j => j == 1) 3 = (.success, 2) := by
  have h := c5_retry_bound_and_first_success.2.1 envSecondTry "u" "MP4" 3 st0 1
    (by decide) (by decide) (by decide)
  exact ⟨h.1, h.2.1, h.2.2,
    c5_retry_bound_and_first_success.2.2.2 (fun j => j == 1) 3 1
      (by decide) (by decide) (by decide)⟩

/-- C6: with a positive attempt budget, every playlist item resolves to
exactly one of success or failure — downloads plus failures count the
input urls — and the loop treats any item independently of the items
before it (so one exhausted failure never aborts the rest). -/
theorem c6_every_item_resolves :
    (∀ (env : Env) (f : String) (N : Nat), 0 < N → ∀ urls : List String,
        (playlistLoop env f N urls).1.length + (playlistLoop env f N urls).2.length
          = urls.length) ∧
    (∀ (env : Env) (f : String) (N : Nat) (us vs : List String),
        playlistLoop env f N (us ++ vs) =
          ((playlistLoop env f N us).1 ++ (playlistLoop env f N vs).1,
           (playlistLoop env f N us).2 ++ (playlistLoop env f N vs).2)) :=
  ⟨fun env f N hN => playlistLoop_length env f N hN,
   fun env f N => playlistLoop_append env f N⟩

/-- Witness for `c6_every_item_resolves` on a concrete 2-item batch. -/
theorem c6_every_item_resolves_witness :
    (playlistLoop env1 "MP4" 3 ["a", "b"]).1.length
      + (playlistLoop env1 "MP4" 3 ["a", "b"]).2.length = 2 :=
  c6_every_item_resolves.1 env1 "MP4" 3 (by decide) ["a", "b"]

/-- C7 counterexample: failing the same `(url, format)` pair twice appends
it twice — the ledger, which is exactly the list shown to the user by the
`/retry` handler, holds a duplicate, so it is not unique by
(requester, url, format). -/
theorem c7_duplicate_in_ledger :
    (downloadVideo envFetchFail "u" "MP4" 3
        (downloadVideo envFetchFail "u" "MP4" 3 st0).st).st.mem
      = [⟨"u", "MP4"⟩, ⟨"u", "MP4"⟩] ∧
    ¬ (downloadVideo envFetchFail "u" "MP4" 3
        (downloadVideo envFetchFail "u" "MP4" 3 st0).st).st.mem.Nodup := by
  decide

/-- C7 as amended: the ledger appends unconditionally — an exhausted
failure always appends `(url, format)` to the end of the list, with no
deduplication on write, and the list displayed to the user is that list,
so re-adding an already-recorded identical pair produces a duplicate. -/
theorem c7_append_without_dedup :
    ∀ (env : Env) (u f : String) (N : Nat) (st : LedgerState), 0 < N →
      (∀ j, j < N → dvOutcome env u f j ≠ .ok) →
      (downloadVideo env u f N st).st.mem = st.mem ++ [⟨u, f⟩] ∧
      (FailedItem.mk u f ∈ st.mem → ¬ (downloadVideo env u f N st).st.mem.Nodup) := by
  intro env u f N st hN hfail
  have h := (downloadVideoGo_all_fail env u f N 0 0 0 st hN
    (fun j hj => by simpa using hfail j hj)).1
  unfold downloadVideo
  constructor
  · rw [h]; rfl
  · intro hmem hnodup
    rw [h] at hnodup
    have : (st.mem ++ [FailedItem.mk u f]).Nodup := hnodup
    rw [List.nodup_append] at this
    exact absurd hmem (by simpa using this.2.2)

/-- Witness for `c7_append_without_dedup`: re-failing an item already in
the ledger duplicates it and breaks `Nodup`. -/
theorem c7_append_without_dedup_witness :
    (downloadVideo envFetchFail "u" "MP4" 3 ⟨[⟨"u", "MP4"⟩], none⟩).st.mem
      = [⟨"u", "MP4"⟩] ++ [⟨"u", "MP4"⟩] ∧
    ¬ (downloadVideo envFetchFail "u" "MP4" 3 ⟨[⟨"u", "MP4"⟩], none⟩).st.mem.Nodup := by
  have h := c7_append_without_dedup envFetchFail "u" "MP4" 3 ⟨[⟨"u", "MP4"⟩], none⟩
    (by decide) (by decide)
  exact ⟨h.1, h.2 (by decide)⟩

/-- C8: the three dispatch sites do not share one collection predicate.  A
watch-page url carrying a `list=` query parameter is dispatched to the
batch orchestrator by the format-selection and retry-all sites
(`'list=' in url`) but to the single-item orchestrator by the
specific-index retry site (`'playlist' in url`). -/
theorem c8_dispatch_predicates_disagree :
    formatSelTreatsAsPlaylist "youtube.com/watch?v=a&list=PL1" = true ∧
    retryAllTreatsAsPlaylist "youtube.com/watch?v=a&list=PL1" = true ∧
    specificRetryTreatsAsPlaylist "youtube.com/watch?v=a&list=PL1" = false := by
  decide

/-- C9 counterexample: on the two-item ledger `[itemA, itemB]` with
`itemA` still failing, the request "3,1" (indices `[2, 0]` after the
`- 1`) ends with ledger `[itemB]`, while the same request without the
out-of-range index 3 ends with `[itemB, itemA]` — the extra index, out of
range for the displayed 2-item list, removed the re-appended copy of
`itemA`, so it was not ignored. -/
theorem c9_oor_index_not_ignored :
    st1.mem.length = 2 ∧
    (processSpecificRetry envFetchFail [2, 0] st1).mem = [itemB] ∧
    (processSpecificRetry envFetchFail [0] st1).mem = [itemB, itemA] := by
  decide

/-- C9 as amended: an out-of-range index is skipped by the retry phase and
raises no error; the removal filter ignores any index at or beyond the
length of the list it runs on; and a request whose indices are all out of
range at entry leaves the ledger exactly unchanged.  (When failed retries
re-append items during the request, the filter runs on the grown list, so
an index beyond the *displayed* range may still remove a re-appended
item — that is the counterexample.) -/
theorem c9_oor_behaviour :
    (∀ (l : List FailedItem) (sel : List Int) (k : Int),
        k < 0 ∨ (l.length : Int) ≤ k →
        removeByIndices l (k :: sel) = removeByIndices l sel) ∧
    (∀ (env : Env) (st : LedgerState) (sel : List Int),
        (∀ k ∈ sel, k < 0 ∨ (st.mem.length : Int) ≤ k) →
        processSpecificRetry env sel st = st) :=
  ⟨fun l sel k hk => removeByIndices_oor_cons l sel k hk,
   fun env st sel hsel => processSpecificRetry_all_oor env st sel hsel⟩

/-- Witness for `c9_oor_behaviour` at concrete out-of-range indices. -/
theorem c9_oor_behaviour_witness :
    removeByIndices [itemA] [(5 : Int)] = removeByIndices [itemA] [] ∧
    processSpecificRetry env1 [(5 : Int)] stA = stA :=
  ⟨c9_oor_behaviour.1 [itemA] [] 5 (by decide),
   c9_oor_behaviour.2 env1 stA [5] (by decide)⟩

/-- C10: a text message containing neither `youtube.com` nor `youtu.be`
produces no reply at all and leaves both the session map entry and the
failed-item ledger unchanged. -/
theorem c10_non_youtube_text_no_effect :
    ∀ (text : String) (session : Option String) (st : LedgerState),
      containsSub "youtube.com" text = false →
      containsSub "youtu.be" text = false →
      handleUrl text session st =
        { sent := [], session := session, ledger := st } := by
  intro t s st h1 h2
  unfold handleUrl
  rw [h1, h2]
  rfl

/-- Witness for `c10_non_youtube_text_no_effect` on a concrete message. -/
theorem c10_non_youtube_text_no_effect_witness :
    handleUrl "bom dia" (some "x") stA =
      { sent := [], session := some "x", ledger := stA } :=
  c10_non_youtube_text_no_effect "bom dia" (some "x") stA (by decide) (by decide)
